import Mathlib

/-!
Verification of GooglePull (src/GooglePull.py) against its specification.

The Python program walks a Google Drive folder tree, downloads every file to
a local destination, and deletes downloaded files (and emptied folders) from
Drive.  This file gives a shallow embedding of the program's core functions
(`handle_http_error_with_exponential_backoff`, `list_sources`,
`get_total_files`, `get_total_size`, `download_file`, `download_files`,
`delete_empty_folders`) and proves or refutes the frozen claims about them.

Remote-store interactions are modelled by explicit oracles (chunk streams,
deletion results, listing failures); local state (written files, deleted
remote nodes) is threaded explicitly, and every remote side effect is
recorded in an event trace.

Layout: all definitions first, then all theorems.
-/

/-- Byte content of a file, as a list of byte values. -/
abbrev Content := List Nat

/-- Metadata of one Drive node as returned by `list_sources`
(fields `id, name, mimeType, md5Checksum, size` of the Drive files API). -/
structure DriveItem where
  id : String
  name : String
  mimeType : String
  md5Checksum : Option String
  size : Nat
deriving Repr, DecidableEq

/-- MIME type marking folder nodes (`application/vnd.google-apps.folder`). -/
def folderMime : String := "application/vnd.google-apps.folder"

/-- MIME type of Google Docs documents. -/
def gdocMime : String := "application/vnd.google-apps.document"

/-- MIME type of Google Sheets spreadsheets. -/
def gsheetMime : String := "application/vnd.google-apps.spreadsheet"

/-- MIME type of Google Slides presentations. -/
def gslideMime : String := "application/vnd.google-apps.presentation"

/-- Transient HTTP statuses retried by the program:
`error.resp.status in [403, 429, 500, 503]` (rate limit / unavailable). -/
def isTransient (s : Nat) : Bool :=
  s == 403 || s == 429 || s == 500 || s == 503

/-- Error raised by a remote call, as seen by the retry wrapper:
an `HttpError` with a status, or any other exception. -/
inductive OpErr where
  | http (status : Nat)
  | other
deriving Repr, DecidableEq

/-- Result of the retry wrapper `handle_http_error_with_exponential_backoff`:
the wrapped value, a re-raised permanent `HttpError`, or the implicit `None`
returned after the retry budget is exhausted (the wrapper logs
"Exceeded maximum retry attempts." and falls off the loop). -/
inductive RetryRes (α : Type) where
  | ok (a : α)
  | raised (status : Nat)
  | exhausted
deriving Repr, DecidableEq

/-- Loop body of `handle_http_error_with_exponential_backoff` (lines 52-66).
`op i` is the result of the i-th invocation of the wrapped function, `i` the
current retry index, `fuel` the remaining iterations of
`for retry in range(max_retry)`.  Returns the outcome, the number of times
the wrapped function was invoked, and the list of backoff sleeps performed.
A transient `HttpError` sleeps `2**retry` and retries; a permanent one is
re-raised at once; any other exception is logged and the loop continues
without sleeping. -/
def backoffLoop {α : Type} (op : Nat → Except OpErr α) (i fuel : Nat) :
    RetryRes α × Nat × List Nat :=
  match fuel with
  | 0 => (RetryRes.exhausted, 0, [])
  | fuel + 1 =>
    match op i with
    | Except.ok a => (RetryRes.ok a, 1, [])
    | Except.error (OpErr.http s) =>
      if isTransient s then
        let r := backoffLoop op (i + 1) fuel
        (r.1, r.2.1 + 1, 2 ^ i :: r.2.2)
      else (RetryRes.raised s, 1, [])
    | Except.error OpErr.other =>
      let r := backoffLoop op (i + 1) fuel
      (r.1, r.2.1 + 1, r.2.2)

/-- The retry wrapper `handle_http_error_with_exponential_backoff` applied to
an operation with a given attempt budget (`max_retry`, default 5). -/
def withBackoff {α : Type} (op : Nat → Except OpErr α) (maxAttempts : Nat) :
    RetryRes α × Nat × List Nat :=
  backoffLoop op 0 maxAttempts

/-- Single-quote character, used when building Drive query strings. -/
def quoteChar : String := String.singleton (Char.ofNat 39)

/-- Query string built by `list_sources` (line 75):
`f"'{parent_id}' in parents and trashed=false" if parent_id else "trashed=false"`.
A `parent_id` of `None` or the empty string is falsy in Python, so those
cases produce the unconstrained query. -/
def listQuery (parentId : Option String) : String :=
  match parentId with
  | none => "trashed=false"
  | some p =>
    if p = "" then "trashed=false"
    else quoteChar ++ p ++ quoteChar ++ " in parents and trashed=false"

/-- One node of the remote store together with its parent link and trash
flag, for evaluating Drive queries. -/
structure StoreEntry where
  item : DriveItem
  parent : Option String
  trashed : Bool
deriving Repr, DecidableEq

/-- Modelled from the spec: the Drive files.list query semantics (§4.1
Remote Store Client, an external collaborator whose code is not in src/).
The query `trashed=false` matches every non-trashed node of the store; the
query `'P' in parents and trashed=false` matches the non-trashed nodes whose
parent is `P`. -/
def evalQuery (store : List StoreEntry) (q : String) : List DriveItem :=
  if q = "trashed=false" then
    (store.filter (fun e => !e.trashed)).map (fun e => e.item)
  else
    let p := (q.drop 1).dropRight (" in parents and trashed=false".length + 1)
    (store.filter (fun e => !e.trashed && e.parent == some p)).map
      (fun e => e.item)

/-- Result pages returned by successive `service.files().list(...).execute()`
calls inside `list_sources`: either a page (its files and whether a
`nextPageToken` follows) or an `HttpError` with a status. -/
structure PageResult where
  files : List DriveItem
  hasNext : Bool
deriving Repr, DecidableEq

/-- Pagination loop of `list_sources` (lines 70-95).  Consumes the oracle of
page results one network call at a time, accumulating `items`.  Any
`HttpError` — transient or not — is caught by the surrounding
`try/except HttpError` and makes the whole function return `[]`; there is no
retry and no backoff sleep.  Returns the listed items, the number of network
calls made, and the (always empty) list of backoff sleeps. -/
def listPagesLoop (pages : List (Except Nat PageResult)) (acc : List DriveItem)
    (calls : Nat) : List DriveItem × Nat × List Nat :=
  match pages with
  | [] => (acc, calls, [])
  | p :: rest =>
    match p with
    | Except.error _ => ([], calls + 1, [])
    | Except.ok pr =>
      if pr.hasNext then listPagesLoop rest (acc ++ pr.files) (calls + 1)
      else (acc ++ pr.files, calls + 1, [])

/-- `list_sources` as a function of the page oracle. -/
def listSourcesPages (pages : List (Except Nat PageResult)) :
    List DriveItem × Nat × List Nat :=
  listPagesLoop pages [] 0

/-- Exception escaping a modelled Python function: an uncaught `OSError`
from a local filesystem operation, or an uncaught `HttpError`. -/
inductive Exc where
  | localErr
  | http (status : Nat)
deriving Repr, DecidableEq

/-- Observable events of a run: each remote call, backoff sleep, progress
update, local directory creation and local file write, in program order. -/
inductive Ev where
  | listed (id : String) (items : List DriveItem)
  | update (n : Nat)
  | newPbar (total : Nat)
  | wrote (path : String) (content : Content)
  | fileDelCall (id : String) (ok : Bool)
  | fdel (id : String) (ok : Bool)
  | sleep (n : Nat)
  | mkdirEv (path : String)
deriving Repr, DecidableEq

/-- Mutable state threaded through a job: the ids deleted from the remote
store so far, the local files written so far (most recent first), and the
number of listing calls issued so far (used to index the listing-failure
oracle). -/
structure WState where
  removed : List String
  written : List (String × Content)
  nList : Nat
deriving Repr, DecidableEq

/-- Result of one `downloader.next_chunk()` call for a file: a chunk of
bytes together with the returned `done` flag, or an `HttpError` status. -/
inductive FetchEvent where
  | chunk (data : Content) (last : Bool)
  | fail (status : Nat)
deriving Repr, DecidableEq

/-- Environment oracles for a run: whether the i-th listing call fails
(`list_sources` catches the error and returns `[]`), the chunk stream served
for each file id, local mkdir/write failures by path, the result of the
single file-delete call per file id, the result of the i-th folder-delete
attempt per folder id, the local content-hash function, and the pre-existing
local files. -/
structure Oracles where
  listFail : Nat → Bool
  plans : String → List FetchEvent
  mkdirFail : String → Bool
  writeFail : String → Bool
  fileDelRes : String → Option Nat
  folderDelRes : String → Nat → Option Nat
  md5 : Content → String
  fs0 : String → Option Content

/-- Content of a local path as `download_file` sees it: a file written
earlier in this run, else a pre-existing file. -/
def lookupFS (oc : Oracles) (st : WState) (p : String) : Option Content :=
  match st.written.find? (fun e => e.1 == p) with
  | some e => some e.2
  | none => oc.fs0 p

/-- `pathlib.Path.with_suffix`: replace the extension of the final path
component (a dot at position 0 or at the very end does not count as an
extension separator; a name without an extension gets the suffix
appended). -/
def withSuffix (name sfx : String) : String :=
  let cs := name.toList
  match cs.reverse.findIdx? (fun c => c == '.') with
  | some j =>
    let i := cs.length - 1 - j
    if 0 < i && i + 1 < cs.length then String.mk (cs.take i) ++ sfx
    else name ++ sfx
  | none => name ++ sfx

/-- Outcome of one run of the inner `while done is False` loop of
`download_file` (lines 168-170): the download completed, or a chunk read
raised an `HttpError`.  Carries the unconsumed chunk stream, the bytes
accumulated in the `BytesIO` buffer, the downloader's cumulative progress,
and the `pbar.update` events emitted. -/
inductive WhileRes where
  | completed (rest : List FetchEvent) (fh : Content) (prog : Nat) (tr : List Ev)
  | httpFail (status : Nat) (rest : List FetchEvent) (fh : Content) (prog : Nat)
      (tr : List Ev)
deriving Repr, DecidableEq

/-- The `while done is False` loop: each `next_chunk()` appends its bytes to
the buffer and the code calls `pbar.update(int(status.resumable_progress))`
— the downloader's cumulative byte count, not the chunk's length.  An
exhausted chunk stream models a stalled download and behaves as a 429
rate-limit error on the next read. -/
def runChunks : List FetchEvent → Content → Nat → WhileRes
  | [], fh, prog => WhileRes.httpFail 429 [] fh prog []
  | FetchEvent.chunk d last :: rest, fh, prog =>
    let fh2 := fh ++ d
    let pg := prog + d.length
    if last then WhileRes.completed rest fh2 pg [Ev.update pg]
    else
      match runChunks rest fh2 pg with
      | WhileRes.completed r f p tr => WhileRes.completed r f p (Ev.update pg :: tr)
      | WhileRes.httpFail s r f p tr => WhileRes.httpFail s r f p (Ev.update pg :: tr)
  | FetchEvent.fail s :: rest, fh, prog => WhileRes.httpFail s rest fh prog []

/-- Outcome of the `for _ in range(max_retry)` retry loop around the chunk
reads (lines 166-180).  `fellThrough` means execution continues to the write
and delete steps: this happens both on a completed download (`break`) and —
crucially — when the retry budget is exhausted, because the loop's `else`
clause only logs "Exceeded maximum retry attempts." and the function then
falls through with whatever partial bytes the buffer holds.  `raised` means
a non-transient `HttpError` was re-raised (caught by the outer handler). -/
inductive LoopRes where
  | fellThrough (exhausted : Bool) (fh : Content) (tr : List Ev)
  | raised (status : Nat) (fh : Content) (tr : List Ev)
deriving Repr, DecidableEq

/-- The per-chunk retry loop of `download_file`: on a transient `HttpError`
sleep `2**attempt` and resume the downloader (buffer and stream position are
kept); on a permanent one re-raise; after `max_retry` failures fall through
with the partial buffer. -/
def chunkRetryLoop (plan : List FetchEvent) (fh : Content) (prog : Nat)
    (i fuel : Nat) : LoopRes :=
  match fuel with
  | 0 => LoopRes.fellThrough true fh []
  | fuel + 1 =>
    match runChunks plan fh prog with
    | WhileRes.completed _ f _ tr => LoopRes.fellThrough false f tr
    | WhileRes.httpFail s rest f p tr =>
      if isTransient s then
        match chunkRetryLoop rest f p (i + 1) fuel with
        | LoopRes.fellThrough ex f2 tr2 =>
          LoopRes.fellThrough ex f2 (tr ++ Ev.sleep (2 ^ i) :: tr2)
        | LoopRes.raised s2 f2 tr2 =>
          LoopRes.raised s2 f2 (tr ++ Ev.sleep (2 ^ i) :: tr2)
      else LoopRes.raised s f tr

/-- `download_file` (lines 125-195).  Steps, as in the source: build the
destination path and `mkdir` the folder (an `OSError` here is uncaught and
propagates); if the destination file exists and its md5 equals the item's
`md5Checksum`, return without touching the remote store; choose direct fetch
or export-transcoding by MIME type, rewriting the local extension for the
export cases; run the chunk retry loop; write the buffer to the destination
file (uncaught `OSError` on failure); then attempt the single
`service.files().delete(...)` call, whose `HttpError` is caught and only
logged.  A permanent `HttpError` from the chunk loop is caught by the outer
`except HttpError` and the function returns with nothing written and no
delete attempted. -/
def download_file (oc : Oracles) (maxRetry : Nat) (item : DriveItem)
    (destFolder : String) (st : WState) : Except Exc Unit × WState × List Ev :=
  let destPath := destFolder ++ "/" ++ item.name
  if oc.mkdirFail destFolder then (Except.error Exc.localErr, st, [])
  else
    let tr0 := [Ev.mkdirEv destFolder]
    let hashMatch :=
      match lookupFS oc st destPath with
      | some c => item.md5Checksum == some (oc.md5 c)
      | none => false
    if hashMatch then (Except.ok (), st, tr0)
    else
      let finalName :=
        if item.mimeType == gdocMime then withSuffix item.name ".docx"
        else if item.mimeType == gsheetMime then withSuffix item.name ".xlsx"
        else if item.mimeType == gslideMime then withSuffix item.name ".pptx"
        else item.name
      let finalPath := destFolder ++ "/" ++ finalName
      match chunkRetryLoop (oc.plans item.id) [] 0 0 maxRetry with
      | LoopRes.raised _ _ tr => (Except.ok (), st, tr0 ++ tr)
      | LoopRes.fellThrough _ fh tr =>
        if oc.writeFail finalPath then (Except.error Exc.localErr, st, tr0 ++ tr)
        else
          let st1 : WState := { st with written := (finalPath, fh) :: st.written }
          let tr1 := tr0 ++ tr ++ [Ev.wrote finalPath fh]
          match oc.fileDelRes item.id with
          | none =>
            (Except.ok (), { st1 with removed := item.id :: st1.removed },
              tr1 ++ [Ev.fileDelCall item.id true])
          | some _ => (Except.ok (), st1, tr1 ++ [Ev.fileDelCall item.id false])

/-- A remote subtree: the ordered children of a folder.  Each child is a
file (with its listing metadata) or a folder (with id, name and its own
children).  Node ids are the globally unique Drive ids. -/
inductive Forest where
  | empty
  | fileCons (item : DriveItem) (rest : Forest)
  | folderCons (id name : String) (children : Forest) (rest : Forest)
deriving Repr, DecidableEq

/-- Listing metadata of a folder node: folder MIME, no checksum, no size. -/
def folderItem (id name : String) : DriveItem :=
  ⟨id, name, folderMime, none, 0⟩

/-- Items returned by listing a folder's children, excluding nodes already
deleted from the remote store. -/
def listItems (removed : List String) : Forest → List DriveItem
  | Forest.empty => []
  | Forest.fileCons it rest =>
    if removed.contains it.id then listItems removed rest
    else it :: listItems removed rest
  | Forest.folderCons fid fname _ rest =>
    if removed.contains fid then listItems removed rest
    else folderItem fid fname :: listItems removed rest

/-- Advance the listing-call counter after one `list_sources` call. -/
def bumpList (st : WState) : WState := { st with nList := st.nList + 1 }

/-- Total size of the non-folder items of one listing, as computed by
`get_total_size` line 107: `sum(int(item.get('size', 0)) for item in items
if item['mimeType'] != folder MIME)`. -/
def sizeItems (items : List DriveItem) : Nat :=
  ((items.filter (fun i => !(i.mimeType == folderMime))).map (fun i => i.size)).sum

/-- Recursion part of `get_total_size` (lines 105-111): for every folder
item of the current listing, list its children and add that subtree's total.
`rem0` is the deleted-id set at the time the parent was listed.  A child
with folder MIME that is a file node lists no children on Drive, modelled by
an empty subtree.  A failed listing (caught inside `list_sources`) yields
`[]`, so a failed folder contributes 0 and is not descended into. -/
def gtsKids (oc : Oracles) (rem0 : List String) (f : Forest) (st : WState) :
    Nat × WState × List Ev :=
  match f with
  | Forest.empty => (0, st, [])
  | Forest.fileCons it rest =>
    if rem0.contains it.id then gtsKids oc rem0 rest st
    else if it.mimeType == folderMime then
      let g := gtsKids oc rem0 rest (bumpList st)
      (g.1, g.2.1, Ev.listed it.id [] :: g.2.2)
    else gtsKids oc rem0 rest st
  | Forest.folderCons fid _ kids rest =>
    if rem0.contains fid then gtsKids oc rem0 rest st
    else
      let failed := oc.listFail st.nList
      let res := if failed then [] else listItems st.removed kids
      let st1 := bumpList st
      let s :=
        if failed then ((0 : Nat), st1, ([] : List Ev))
        else gtsKids oc st1.removed kids st1
      let g := gtsKids oc rem0 rest s.2.1
      (sizeItems res + s.1 + g.1, g.2.1, Ev.listed fid res :: (s.2.2 ++ g.2.2))

/-- `get_total_size(service, parent_id)` over the folder's children:
list once, sum the non-folder sizes, and recurse into folder items. -/
def gts (oc : Oracles) (fid : String) (children : Forest) (st : WState) :
    Nat × WState × List Ev :=
  let failed := oc.listFail st.nList
  let res := if failed then [] else listItems st.removed children
  let st1 := bumpList st
  let s :=
    if failed then ((0 : Nat), st1, ([] : List Ev))
    else gtsKids oc st1.removed children st1
  (sizeItems res + s.1, s.2.1, Ev.listed fid res :: s.2.2)

/-- Recursion part of `get_total_files` (lines 97-103): for every folder
item of the current listing, list its children, add `len(items)` of that
listing and recurse.  Note line 99 counts `len(items)` — every child node,
folders included. -/
def gtfKids (oc : Oracles) (rem0 : List String) (f : Forest) (st : WState) :
    Nat × WState × List Ev :=
  match f with
  | Forest.empty => (0, st, [])
  | Forest.fileCons it rest =>
    if rem0.contains it.id then gtfKids oc rem0 rest st
    else if it.mimeType == folderMime then
      let g := gtfKids oc rem0 rest (bumpList st)
      (g.1, g.2.1, Ev.listed it.id [] :: g.2.2)
    else gtfKids oc rem0 rest st
  | Forest.folderCons fid _ kids rest =>
    if rem0.contains fid then gtfKids oc rem0 rest st
    else
      let failed := oc.listFail st.nList
      let res := if failed then [] else listItems st.removed kids
      let st1 := bumpList st
      let s :=
        if failed then ((0 : Nat), st1, ([] : List Ev))
        else gtfKids oc st1.removed kids st1
      let g := gtfKids oc rem0 rest s.2.1
      (res.length + s.1 + g.1, g.2.1, Ev.listed fid res :: (s.2.2 ++ g.2.2))

/-- `get_total_files(service, parent_id)` over the folder's children. -/
def gtf (oc : Oracles) (fid : String) (children : Forest) (st : WState) :
    Nat × WState × List Ev :=
  let failed := oc.listFail st.nList
  let res := if failed then [] else listItems st.removed children
  let st1 := bumpList st
  let s :=
    if failed then ((0 : Nat), st1, ([] : List Ev))
    else gtfKids oc st1.removed children st1
  (res.length + s.1, s.2.1, Ev.listed fid res :: s.2.2)

/-- Number of nodes (files and folders) of a remote subtree. -/
def countNodes : Forest → Nat
  | Forest.empty => 0
  | Forest.fileCons _ r => 1 + countNodes r
  | Forest.folderCons _ _ k r => 1 + countNodes k + countNodes r

/-- Number of File-kind nodes of a remote subtree. -/
def countFileNodes : Forest → Nat
  | Forest.empty => 0
  | Forest.fileCons _ r => 1 + countFileNodes r
  | Forest.folderCons _ _ k r => countFileNodes k + countFileNodes r

/-- Sum of the sizes of the File-kind nodes of a remote subtree. -/
def fileBytes : Forest → Nat
  | Forest.empty => 0
  | Forest.fileCons it r => it.size + fileBytes r
  | Forest.folderCons _ _ k r => fileBytes k + fileBytes r

/-- Well-formed remote subtree: no file node carries the folder MIME type
(always true of real Drive listings). -/
def wfForest : Forest → Bool
  | Forest.empty => true
  | Forest.fileCons it r => !(it.mimeType == folderMime) && wfForest r
  | Forest.folderCons _ _ k r => wfForest k && wfForest r

/-- Sequence two stateful steps: an uncaught exception in the first skips
the second (Python exception propagation); traces concatenate. -/
def andThen (r : Except Exc Unit × WState × List Ev)
    (k : WState → Except Exc Unit × WState × List Ev) :
    Except Exc Unit × WState × List Ev :=
  match r with
  | (Except.error e, st, tr) => (Except.error e, st, tr)
  | (Except.ok _, st, tr) =>
    let r2 := k st
    (r2.1, r2.2.1, tr ++ r2.2.2)

/-- Prefix a trace onto a step's result (error or not). -/
def withTrace (tr : List Ev) (r : Except Exc Unit × WState × List Ev) :
    Except Exc Unit × WState × List Ev :=
  (r.1, r.2.1, tr ++ r.2.2)

/-- Folder-deletion retry loop of `delete_empty_folders` (lines 228-241):
each attempt issues the delete call; on success the folder is removed and
the loop breaks; on a transient `HttpError` it sleeps `2**attempt` and
retries; a permanent `HttpError` is re-raised (uncaught — it aborts the
whole job); after `max_retry` failures the `else` clause logs and the
function returns normally. -/
def delLoop (oc : Oracles) (fid : String) (i fuel : Nat) (st : WState) :
    Except Exc Unit × WState × List Ev :=
  match fuel with
  | 0 => (Except.ok (), st, [])
  | fuel + 1 =>
    match oc.folderDelRes fid i with
    | none =>
      (Except.ok (), { st with removed := fid :: st.removed }, [Ev.fdel fid true])
    | some s =>
      if isTransient s then
        let r := delLoop oc fid (i + 1) fuel st
        (r.1, r.2.1, Ev.fdel fid false :: Ev.sleep (2 ^ i) :: r.2.2)
      else (Except.error (Exc.http s), st, [Ev.fdel fid false])

/-- Recursion part of `delete_empty_folders` (lines 242-245): for every
folder item of the (non-empty) listing, run `delete_empty_folders` on it
with the default retry budget of 5.  The body of the recursive call is the
same as `reap`'s: list the child's children; if the listing comes back
empty, run the delete retry loop; otherwise recurse further. -/
def reapKids (oc : Oracles) (rem0 : List String) (f : Forest) (st : WState) :
    Except Exc Unit × WState × List Ev :=
  match f with
  | Forest.empty => (Except.ok (), st, [])
  | Forest.fileCons it rest =>
    if rem0.contains it.id then reapKids oc rem0 rest st
    else if it.mimeType == folderMime then
      let st1 := bumpList st
      let r1 := delLoop oc it.id 0 5 st1
      andThen (r1.1, r1.2.1, Ev.listed it.id [] :: r1.2.2)
        (fun st2 => reapKids oc rem0 rest st2)
    else reapKids oc rem0 rest st
  | Forest.folderCons fid _ kids rest =>
    if rem0.contains fid then reapKids oc rem0 rest st
    else
      let failed := oc.listFail st.nList
      let res := if failed then [] else listItems st.removed kids
      let st1 := bumpList st
      let r1 :=
        if res.isEmpty then delLoop oc fid 0 5 st1
        else reapKids oc st1.removed kids st1
      andThen (r1.1, r1.2.1, Ev.listed fid res :: r1.2.2)
        (fun st2 => reapKids oc rem0 rest st2)

/-- `delete_empty_folders(service, folder_id, max_retry)` (lines 222-245):
list the folder's current children; if the listing comes back empty, run the
delete retry loop on the folder itself; otherwise recurse into each folder
child. -/
def reap (oc : Oracles) (maxRetry : Nat) (fid : String) (children : Forest)
    (st : WState) : Except Exc Unit × WState × List Ev :=
  let failed := oc.listFail st.nList
  let res := if failed then [] else listItems st.removed children
  let st1 := bumpList st
  let r1 :=
    if res.isEmpty then delLoop oc fid 0 maxRetry st1
    else reapKids oc st1.removed children st1
  (r1.1, r1.2.1, Ev.listed fid res :: r1.2.2)

/-- First loop of `download_files` (lines 211-213): for every non-folder
item of the snapshot listing, run `download_file` with the default retry
budget of 5.  An uncaught exception from `download_file` (a local
mkdir/write failure) propagates and skips the remaining items. -/
def filesPass (oc : Oracles) (rem0 : List String) (f : Forest) (dest : String)
    (st : WState) : Except Exc Unit × WState × List Ev :=
  match f with
  | Forest.empty => (Except.ok (), st, [])
  | Forest.fileCons it rest =>
    if rem0.contains it.id then filesPass oc rem0 rest dest st
    else if it.mimeType == folderMime then filesPass oc rem0 rest dest st
    else
      andThen (download_file oc 5 it dest st)
        (fun st2 => filesPass oc rem0 rest dest st2)
  | Forest.folderCons _ _ _ rest => filesPass oc rem0 rest dest st

/-- Second loop of `download_files` (lines 215-217) together with the body
of the recursive `download_files` call, inlined per folder item: append the
child's name to the destination, `mkdir` it, take the snapshot listing,
compute the subtree total for a fresh `tqdm` bar, run the two loops on the
snapshot and finally `delete_empty_folders`.  A file node with folder MIME
lists no children on Drive (empty subtree). -/
def walkKids (oc : Oracles) (rem0 : List String) (f : Forest) (dest : String)
    (st : WState) : Except Exc Unit × WState × List Ev :=
  match f with
  | Forest.empty => (Except.ok (), st, [])
  | Forest.fileCons it rest =>
    if rem0.contains it.id then walkKids oc rem0 rest dest st
    else if it.mimeType == folderMime then
      let dest2 := dest ++ "/" ++ it.name
      let step :=
        if oc.mkdirFail dest2 then (Except.error Exc.localErr, st, ([] : List Ev))
        else
          let st1 := bumpList st
          let g := gts oc it.id Forest.empty st1
          let tr0 := Ev.mkdirEv dest2 :: Ev.listed it.id [] ::
            (g.2.2 ++ [Ev.newPbar g.1])
          withTrace tr0 (reap oc 5 it.id Forest.empty g.2.1)
      andThen step (fun st2 => walkKids oc rem0 rest dest st2)
    else walkKids oc rem0 rest dest st
  | Forest.folderCons fid fname kids rest =>
    if rem0.contains fid then walkKids oc rem0 rest dest st
    else
      let dest2 := dest ++ "/" ++ fname
      let step :=
        if oc.mkdirFail dest2 then (Except.error Exc.localErr, st, ([] : List Ev))
        else
          let failed := oc.listFail st.nList
          let res := if failed then [] else listItems st.removed kids
          let st1 := bumpList st
          let g := gts oc fid kids st1
          let tr0 := Ev.mkdirEv dest2 :: Ev.listed fid res ::
            (g.2.2 ++ [Ev.newPbar g.1])
          if failed then withTrace tr0 (reap oc 5 fid kids g.2.1)
          else
            withTrace tr0 (andThen (filesPass oc st1.removed kids dest2 g.2.1)
              (fun s3 => andThen (walkKids oc st1.removed kids dest2 s3)
                (fun s4 => reap oc 5 fid kids s4)))
      andThen step (fun st2 => walkKids oc rem0 rest dest st2)

/-- `download_files(service, source, dest_folder, is_root)` (lines 197-220):
append the source's name to the destination unless at the root, `mkdir` it,
take the snapshot listing, compute `get_total_size` for the `tqdm` bar of
this call, run the files loop and the folders loop on the snapshot, then
call `delete_empty_folders` on this folder's own id — including at the
root. -/
def download_files (oc : Oracles) (fid fname : String) (children : Forest)
    (destFolder : String) (isRoot : Bool) (st : WState) :
    Except Exc Unit × WState × List Ev :=
  let dest2 := if isRoot then destFolder else destFolder ++ "/" ++ fname
  if oc.mkdirFail dest2 then (Except.error Exc.localErr, st, [])
  else
    let failed := oc.listFail st.nList
    let res := if failed then [] else listItems st.removed children
    let st1 := bumpList st
    let g := gts oc fid children st1
    let tr0 := Ev.mkdirEv dest2 :: Ev.listed fid res ::
      (g.2.2 ++ [Ev.newPbar g.1])
    if failed then withTrace tr0 (reap oc 5 fid children g.2.1)
    else
      withTrace tr0 (andThen (filesPass oc st1.removed children dest2 g.2.1)
        (fun s3 => andThen (walkKids oc st1.removed children dest2 s3)
          (fun s4 => reap oc 5 fid children s4)))

/-- Arguments of the `pbar.update` calls of a trace, in order. -/
def updatesOf (tr : List Ev) : List Nat :=
  tr.filterMap (fun e => match e with | Ev.update n => some n | _ => none)

/-- Totals of the progress bars created during a trace, in order. -/
def pbarTotalsOf (tr : List Ev) : List Nat :=
  tr.filterMap (fun e => match e with | Ev.newPbar n => some n | _ => none)

/-- Running partial sums starting from `acc`. -/
def cumSumsFrom (acc : Nat) : List Nat → List Nat
  | [] => []
  | x :: r => (acc + x) :: cumSumsFrom (acc + x) r

/-- Running partial sums of a list. -/
def cumSums (l : List Nat) : List Nat := cumSumsFrom 0 l

/-- A clean chunk plan delivering the given chunks with no failures, the
last chunk marked `done`. -/
def mkPlan : List Content → List FetchEvent
  | [] => []
  | [d] => [FetchEvent.chunk d true]
  | d :: rest => FetchEvent.chunk d false :: mkPlan rest

/-- Trace of a while-loop outcome. -/
def whileTr : WhileRes → List Ev
  | WhileRes.completed _ _ _ tr => tr
  | WhileRes.httpFail _ _ _ _ tr => tr

/-- Trace of a chunk-retry-loop outcome. -/
def loopTr : LoopRes → List Ev
  | LoopRes.fellThrough _ _ tr => tr
  | LoopRes.raised _ _ tr => tr

/-- Expected trace of an all-transient folder-delete retry loop: one failed
delete call and one backoff sleep (`2^i, 2^(i+1), ...`) per attempt. -/
def fdelAttempts (fid : String) (i fuel : Nat) : List Ev :=
  match fuel with
  | 0 => []
  | fuel + 1 =>
    Ev.fdel fid false :: Ev.sleep (2 ^ i) :: fdelAttempts fid (i + 1) fuel

/-- Scanner state for the folder-deletion guard: `some f` when the
immediately preceding events are a listing of `f` that returned zero
children followed only by sleeps and delete attempts for `f`. -/
def armStep (s : Option String) (e : Ev) : Option String :=
  match e with
  | Ev.listed f items => if items.isEmpty then some f else none
  | Ev.sleep _ => s
  | Ev.fdel _ _ => s
  | _ => none

/-- One event is admissible under the scanner state: a folder-delete call
requires that exact folder to be armed by an empty listing. -/
def evOk (s : Option String) (e : Ev) : Bool :=
  match e with
  | Ev.fdel f _ => s == some f
  | _ => true

/-- Trace check: every folder-delete call is immediately preceded by a
listing of that same folder returning zero children, separated only by
backoff sleeps and earlier delete attempts for the same folder. -/
def scanOk (s : Option String) : List Ev → Bool
  | [] => true
  | e :: r => evOk s e && scanOk (armStep s e) r

/-- Benign environment: no listing failures, no local failures, every
remote deletion succeeds, no pre-existing local files. -/
def cleanOracles : Oracles :=
  { listFail := fun _ => false
    plans := fun _ => []
    mkdirFail := fun _ => false
    writeFail := fun _ => false
    fileDelRes := fun _ => none
    folderDelRes := fun _ _ => none
    md5 := fun _ => ""
    fs0 := fun _ => none }

/-- Initial job state: nothing deleted, nothing written, no listings yet. -/
def st0 : WState := ⟨[], [], 0⟩

/-- A 2-byte binary file node. -/
def item1 : DriveItem :=
  ⟨"f1", "A.bin", "application/octet-stream", some "h1", 2⟩

/-- Environment for the retry-exhaustion run of `item1`: its chunk stream
delivers one 2-byte chunk (not final) and then fails with 429 on every
subsequent read, five times — enough to exhaust the default retry budget. -/
def oc1 : Oracles :=
  { cleanOracles with
    plans := fun i =>
      if i == "f1" then
        FetchEvent.chunk [1, 2] false :: List.replicate 5 (FetchEvent.fail 429)
      else [] }

/-- Environment for the hash-match run of `item1`: the destination file
already exists and its content hashes to the node's checksum. -/
def oc4 : Oracles :=
  { cleanOracles with
    md5 := fun _ => "h1"
    fs0 := fun p => if p == "d/A.bin" then some [9] else none }

/-- Node count of the subtrees hanging below a forest's top level. -/
def nestedCount : Forest → Nat
  | Forest.empty => 0
  | Forest.fileCons _ r => nestedCount r
  | Forest.folderCons _ _ k r => countNodes k + nestedCount r

/-- File bytes of the subtrees hanging below a forest's top level. -/
def nestedBytes : Forest → Nat
  | Forest.empty => 0
  | Forest.fileCons _ r => nestedBytes r
  | Forest.folderCons _ _ k r => fileBytes k + nestedBytes r

/-- A root whose only child is one empty subfolder (no files anywhere). -/
def oneFolderForest : Forest := Forest.folderCons "a" "x" Forest.empty Forest.empty

/-- Concatenation of a list of byte chunks. -/
def catAll : List Content → Content
  | [] => []
  | c :: r => c ++ catAll r

/-- A trace contains a folder-delete call. -/
def hasFdel : List Ev → Bool
  | [] => false
  | Ev.fdel _ _ :: _ => true
  | _ :: r => hasFdel r

/-- Environment where every mkdir fails with `OSError`. -/
def ocMk : Oracles := { cleanOracles with mkdirFail := fun _ => true }

/-- Environment where the single file-delete call raises a transient 429:
the chunk stream succeeds in one chunk, so the run reaches the delete. -/
def ocD : Oracles :=
  { cleanOracles with
    plans := fun _ => [FetchEvent.chunk [7] true]
    fileDelRes := fun _ => some 429 }

/-- Environment where every folder-delete attempt raises a transient 429. -/
def ocFD : Oracles := { cleanOracles with folderDelRes := fun _ _ => some 429 }

/-- Two sibling 1-byte files `A.bin` and `B.bin`. -/
def itemA : DriveItem := ⟨"fa", "A.bin", "application/octet-stream", none, 1⟩

/-- Second sibling file. -/
def itemB : DriveItem := ⟨"fb", "B.bin", "application/octet-stream", none, 1⟩

/-- Root children: the two sibling files. -/
def forest5 : Forest := Forest.fileCons itemA (Forest.fileCons itemB Forest.empty)

/-- Environment for the sibling-abort run: both chunk streams succeed, but
the local write of `d/A.bin` raises `OSError`. -/
def oc5 : Oracles :=
  { cleanOracles with
    plans := fun i =>
      if i == "fa" then [FetchEvent.chunk [7] true]
      else if i == "fb" then [FetchEvent.chunk [8] true]
      else []
    writeFail := fun p => p == "d/A.bin" }

/-- A 5-byte file delivered in two chunks of 3 and 2 bytes. -/
def item7 : DriveItem := ⟨"fc", "C.bin", "application/octet-stream", none, 5⟩

/-- Root children: just the two-chunk file. -/
def forest7 : Forest := Forest.fileCons item7 Forest.empty

/-- Environment for the progress run: the file arrives in chunks
`[1,2,3]` then `[4,5]`, no failures anywhere. -/
def oc7 : Oracles :=
  { cleanOracles with
    plans := fun i =>
      if i == "fc" then
        [FetchEvent.chunk [1, 2, 3] false, FetchEvent.chunk [4, 5] true]
      else [] }

/-! ## Theorems -/

theorem contains_nil_str (a : String) : ([] : List String).contains a = false := rfl

theorem countNodes_split (f : Forest) :
    countNodes f = (listItems [] f).length + nestedCount f := by
  induction f with
  | empty => rfl
  | fileCons it r ih =>
    simp only [countNodes, listItems, contains_nil_str, Bool.false_eq_true,
      if_false, List.length_cons, nestedCount, ih]
    omega
  | folderCons fid fn k r ihk ihr =>
    simp only [countNodes, listItems, contains_nil_str, Bool.false_eq_true,
      if_false, List.length_cons, nestedCount, ihr]
    omega

theorem fileBytes_split (f : Forest) (hwf : wfForest f = true) :
    fileBytes f = sizeItems (listItems [] f) + nestedBytes f := by
  induction f with
  | empty => rfl
  | fileCons it r ih =>
    rw [wfForest, Bool.and_eq_true] at hwf
    obtain ⟨h1, h2⟩ := hwf
    simp only [fileBytes, listItems, contains_nil_str, Bool.false_eq_true,
      if_false, nestedBytes, ih h2, sizeItems, List.filter_cons, h1, if_true,
      List.map_cons, List.sum_cons]
    omega
  | folderCons fid fn k r ihk ihr =>
    rw [wfForest, Bool.and_eq_true] at hwf
    obtain ⟨h1, h2⟩ := hwf
    have hfm : (!(folderItem fid fn).mimeType == folderMime) = false := by
      simp [folderItem]
    simp only [fileBytes, listItems, contains_nil_str, Bool.false_eq_true,
      if_false, nestedBytes, ihr h2, sizeItems, List.filter_cons, hfm,
      Bool.false_eq_true, if_false]
    omega

theorem gtfKids_clean (oc : Oracles) (hl : ∀ n, oc.listFail n = false)
    (f : Forest) :
    ∀ st, st.removed = [] →
      (gtfKids oc [] f st).1 = nestedCount f ∧
      ((gtfKids oc [] f st).2.1).removed = [] := by
  induction f with
  | empty => intro st h; exact ⟨rfl, h⟩
  | fileCons it r ih =>
    intro st h
    cases hm : it.mimeType == folderMime with
    | false => simpa [gtfKids, hm, nestedCount] using ih st h
    | true =>
      have hb : (bumpList st).removed = [] := h
      simpa [gtfKids, hm, nestedCount] using ih (bumpList st) hb
  | folderCons fid fn k r ihk ihr =>
    intro st h
    have hb : (bumpList st).removed = [] := h
    obtain ⟨hk1, hk2⟩ := ihk (bumpList st) hb
    obtain ⟨hr1, hr2⟩ :=
      ihr ((gtfKids oc [] k (bumpList st)).2.1) hk2
    simp only [gtfKids, contains_nil_str, Bool.false_eq_true, if_false,
      hl st.nList, h, hb, hk1, hr1, hk2, hr2, nestedCount]
    refine ⟨?_, trivial⟩
    rw [countNodes_split]
    try omega

theorem gtsKids_clean (oc : Oracles) (hl : ∀ n, oc.listFail n = false)
    (f : Forest) :
    ∀ st, st.removed = [] → wfForest f = true →
      (gtsKids oc [] f st).1 = nestedBytes f ∧
      ((gtsKids oc [] f st).2.1).removed = [] := by
  induction f with
  | empty => intro st h _; exact ⟨rfl, h⟩
  | fileCons it r ih =>
    intro st h hwf
    rw [wfForest, Bool.and_eq_true] at hwf
    obtain ⟨h1, h2⟩ := hwf
    have hm : (it.mimeType == folderMime) = false := by
      cases hq : it.mimeType == folderMime
      · rfl
      · rw [hq] at h1; exact absurd h1 (by decide)
    simpa [gtsKids, hm, nestedBytes] using ih st h h2
  | folderCons fid fn k r ihk ihr =>
    intro st h hwf
    rw [wfForest, Bool.and_eq_true] at hwf
    obtain ⟨h1, h2⟩ := hwf
    have hb : (bumpList st).removed = [] := h
    obtain ⟨hk1, hk2⟩ := ihk (bumpList st) hb h1
    obtain ⟨hr1, hr2⟩ :=
      ihr ((gtsKids oc [] k (bumpList st)).2.1) hk2 h2
    simp only [gtsKids, contains_nil_str, Bool.false_eq_true, if_false,
      hl st.nList, h, hb, hk1, hr1, hk2, hr2, nestedBytes]
    refine ⟨?_, trivial⟩
    rw [fileBytes_split k h1]
    try omega

/-- C6 (counterexample): on a tree whose only node is one empty subfolder,
`get_total_files` returns 1 although there are zero File-kind nodes —
line 99 counts `len(items)`, which includes folder nodes. -/
theorem total_files_counts_folders_cx :
    (gtf cleanOracles "r" oneFolderForest st0).1 = 1 ∧
    countFileNodes oneFolderForest = 0 ∧
    (gtf cleanOracles "r" oneFolderForest st0).1 ≠
      countFileNodes oneFolderForest := by
  refine ⟨rfl, rfl, by decide⟩

/-- C6 (amended): in a failure-free environment, `get_total_files` on a
tree T equals the number of ALL nodes reachable from T — files and folders
alike — while `get_total_size` equals the sum of the sizes of the File-kind
nodes reachable from T, independent of folder ordering. -/
theorem get_totals_amended (oc : Oracles) (fid : String) (f : Forest)
    (st : WState) (hl : ∀ n, oc.listFail n = false) (hrem : st.removed = [])
    (hwf : wfForest f = true) :
    (gtf oc fid f st).1 = countNodes f ∧
    (gts oc fid f st).1 = fileBytes f := by
  have hb : (bumpList st).removed = [] := hrem
  obtain ⟨hk1, _⟩ := gtfKids_clean oc hl f (bumpList st) hb
  obtain ⟨hs1, _⟩ := gtsKids_clean oc hl f (bumpList st) hb hwf
  constructor
  · simp only [gtf, hl st.nList, Bool.false_eq_true, if_false, hrem, hb, hk1]
    try rw [countNodes_split]
    try omega
  · simp only [gts, hl st.nList, Bool.false_eq_true, if_false, hrem, hb, hs1]
    try rw [fileBytes_split f hwf]
    try omega

/-- Witness for the amended C6 on the one-empty-subfolder tree. -/
theorem get_totals_amended_witness :
    (gtf cleanOracles "r" oneFolderForest st0).1 = countNodes oneFolderForest ∧
    (gts cleanOracles "r" oneFolderForest st0).1 = fileBytes oneFolderForest :=
  get_totals_amended cleanOracles "r" oneFolderForest st0 (fun _ => rfl) rfl rfl

/-- C1 (code evaluation at the failing input): when every chunk read after
the first fails transiently and the per-chunk retry budget of 5 is
exhausted, `download_file` does NOT abort the transfer — the `for/else`
clause only logs, execution falls through, the partial 2-byte buffer is
written to the destination file, and the remote node is deleted. -/
theorem download_file_exhausted_writes_and_deletes :
    download_file oc1 5 item1 "d" st0 =
      (Except.ok (), ⟨["f1"], [("d/A.bin", [1, 2])], 0⟩,
        [Ev.mkdirEv "d", Ev.update 2, Ev.sleep 1, Ev.sleep 2, Ev.sleep 4,
          Ev.sleep 8, Ev.sleep 16, Ev.wrote "d/A.bin" [1, 2],
          Ev.fileDelCall "f1" true]) := by
  rfl

/-- C4 (counterexample): when the destination file exists with a matching
content hash, `download_file` returns at once — and the remote deletion of
the node is NOT attempted, contrary to the claim. -/
theorem hash_match_no_delete_cx :
    download_file oc4 5 item1 "d" st0 = (Except.ok (), st0, [Ev.mkdirEv "d"]) ∧
    Ev.fileDelCall "f1" true ∉ (download_file oc4 5 item1 "d" st0).2.2 ∧
    Ev.fileDelCall "f1" false ∉ (download_file oc4 5 item1 "d" st0).2.2 := by
  refine ⟨rfl, ?_, ?_⟩ <;> decide

/-- C4 (amended): if the destination file exists and its content hash
equals the node's `md5Checksum`, `download_file` performs only the mkdir
and the hash check: no chunk is fetched, nothing is written, no progress
update is made, and no remote deletion is attempted — the state is returned
unchanged and the trace holds only the mkdir. -/
theorem hash_match_skip_amended (oc : Oracles) (maxRetry : Nat)
    (item : DriveItem) (destFolder : String) (st : WState) (c : Content)
    (hmk : oc.mkdirFail destFolder = false)
    (hfs : lookupFS oc st (destFolder ++ "/" ++ item.name) = some c)
    (hmd : item.md5Checksum = some (oc.md5 c)) :
    download_file oc maxRetry item destFolder st =
      (Except.ok (), st, [Ev.mkdirEv destFolder]) := by
  simp [download_file, hmk, hfs, hmd]

/-- Witness for the amended C4 at a concrete hash-match input. -/
theorem hash_match_skip_amended_witness :
    download_file oc4 5 item1 "d" st0 = (Except.ok (), st0, [Ev.mkdirEv "d"]) :=
  hash_match_skip_amended oc4 5 item1 "d" st0 [9] rfl rfl rfl

theorem backoffLoop_all_transient {α : Type} (op : Nat → Except OpErr α)
    (fuel : Nat) :
    ∀ i, (∀ j, j < i + fuel → ∃ t, op j = Except.error (OpErr.http t) ∧
        isTransient t = true) →
      backoffLoop op i fuel =
        (RetryRes.exhausted, fuel, (List.range fuel).map (fun k => 2 ^ (i + k))) := by
  induction fuel with
  | zero => intro i _; simp [backoffLoop]
  | succ n ih =>
    intro i h
    obtain ⟨t, ht, htr⟩ := h i (by omega)
    have hrec := ih (i + 1) (by intro j hj; exact h j (by omega))
    simp only [backoffLoop, ht, htr, if_true, hrec]
    rw [List.range_succ_eq_map]
    simp only [List.map_cons, List.map_map, Nat.add_zero]
    refine congrArg _ (congrArg _ (congrArg _ ?_))
    apply List.map_congr_left
    intro a _
    simp only [Function.comp_apply]
    congr 1
    omega

/-- C8: an operation that always raises a transient-class error is invoked
exactly N times by the retry wrapper and the result is `Exhausted`, with the
backoff sleeps being exactly `2^0, 2^1, ..., 2^(N-1)` time units, a strictly
increasing sequence; an operation that raises a permanent-class error on the
first call is invoked exactly once and the error propagates immediately. -/
theorem retry_wrapper_bound {α : Type} (op op2 : Nat → Except OpErr α)
    (N s : Nat) (hN : 1 ≤ N)
    (htrans : ∀ j, j < N → ∃ t, op j = Except.error (OpErr.http t) ∧
        isTransient t = true)
    (hperm0 : op2 0 = Except.error (OpErr.http s))
    (hperm1 : isTransient s = false) :
    withBackoff op N =
        (RetryRes.exhausted, N, (List.range N).map (fun k => 2 ^ k)) ∧
      List.Pairwise (· < ·) ((List.range N).map (fun k => 2 ^ k)) ∧
      withBackoff op2 N = (RetryRes.raised s, 1, []) := by
  refine ⟨?_, ?_, ?_⟩
  · have h := backoffLoop_all_transient op N 0 (by simpa using htrans)
    simpa [withBackoff] using h
  · rw [List.pairwise_map]
    refine (List.pairwise_lt_range N).imp ?_
    intro a b hab
    exact Nat.pow_lt_pow_right one_lt_two hab
  · obtain ⟨n, rfl⟩ := Nat.exists_eq_add_of_le hN
    rw [Nat.add_comm 1 n]
    simp [withBackoff, backoffLoop, hperm0, hperm1]

/-- Witness for C8 at `N = 5`, an always-429 transient operation and a
first-call-404 permanent operation. -/
theorem retry_wrapper_bound_witness :
    withBackoff (fun _ => (Except.error (OpErr.http 429) : Except OpErr Unit)) 5 =
        (RetryRes.exhausted, 5, (List.range 5).map (fun k => 2 ^ k)) ∧
      List.Pairwise (· < ·) ((List.range 5).map (fun k => 2 ^ k)) ∧
      withBackoff (fun _ => (Except.error (OpErr.http 404) : Except OpErr Unit)) 5 =
        (RetryRes.raised 404, 1, []) :=
  retry_wrapper_bound (fun _ => Except.error (OpErr.http 429))
    (fun _ => Except.error (OpErr.http 404)) 5 404 (by decide)
    (fun j _ => ⟨429, rfl, rfl⟩) rfl (by decide)

/-- C10: with an empty (or absent) root folder identifier, `list_sources`
issues the query `trashed=false` with no parent constraint, so it returns
every non-trashed node of the entire remote store. -/
theorem empty_root_lists_entire_store :
    listQuery (some "") = "trashed=false" ∧
    listQuery none = "trashed=false" ∧
    ∀ store : List StoreEntry,
      evalQuery store (listQuery (some "")) =
        (store.filter (fun e => !e.trashed)).map (fun e => e.item) := by
  refine ⟨rfl, rfl, ?_⟩
  intro store
  simp [listQuery, evalQuery]

/-- C9 (counterexample): running the job on a root folder that ends up with
zero children deletes the root folder itself — `download_files` calls
`delete_empty_folders` on the root's own id (line 220), and the reaper
deletes any folder whose listing comes back empty. -/
theorem root_deleted_when_empty_cx :
    Ev.fdel "root" true ∈
      (download_files cleanOracles "root" "Root" Forest.empty "d" true st0).2.2 ∧
    "root" ∈
      ((download_files cleanOracles "root" "Root" Forest.empty "d" true
        st0).2.1).removed := by
  decide

/-- C9 (amended): the cleanup pass runs on the root folder as well: whenever
the root's reap-time listing returns zero children (here: a childless root)
and the delete call succeeds, the job deletes the root folder from the
remote store. -/
theorem root_reaped_amended (oc : Oracles) (fid fname destFolder : String)
    (isRoot : Bool) (st : WState)
    (hmk : oc.mkdirFail
      (if isRoot then destFolder else destFolder ++ "/" ++ fname) = false)
    (hdel : oc.folderDelRes fid 0 = none) :
    Ev.fdel fid true ∈
      (download_files oc fid fname Forest.empty destFolder isRoot st).2.2 := by
  rcases hf : oc.listFail st.nList with _ | _ <;>
    simp [download_files, hmk, withTrace, andThen, filesPass, walkKids, reap,
      delLoop, gts, gtsKids, listItems, hdel, hf]

/-- Witness for the amended C9: a clean run on an empty root. -/
theorem root_reaped_amended_witness :
    Ev.fdel "root" true ∈
      (download_files cleanOracles "root" "Root" Forest.empty "d" true
        st0).2.2 :=
  root_reaped_amended cleanOracles "root" "Root" "d" true st0 rfl rfl

/-- C5 (counterexample): a local write failure inside the first file's
transfer aborts the whole walk — the `OSError` is not caught by
`download_file` (whose handler only catches `HttpError`) nor by
`download_files`, so the sibling file `B.bin` is never transferred and the
job errors out. -/
theorem local_write_aborts_walk_cx :
    (download_files oc5 "root" "Root" forest5 "d" true st0).1 =
      Except.error Exc.localErr ∧
    Ev.fileDelCall "fb" true ∉
      (download_files oc5 "root" "Root" forest5 "d" true st0).2.2 ∧
    Ev.wrote "d/B.bin" [8] ∉
      (download_files oc5 "root" "Root" forest5 "d" true st0).2.2 := by
  refine ⟨rfl, ?_, ?_⟩ <;> decide

/-- C5 (amended): a remote (`HttpError`-class) failure inside a single
file's transfer never raises out of `download_file` — absent local
mkdir/write failures the call always returns normally, whatever the chunk
stream and deletion oracles do, so siblings and the walk continue; a local
mkdir failure, by contrast, raises an uncaught `OSError` that aborts the
enclosing walk (as the counterexample shows for a write failure). -/
theorem file_failure_isolation_amended (oc oc2 : Oracles) (mr : Nat)
    (item item2 : DriveItem) (dest dest2 : String) (st st2 : WState)
    (hmk : oc.mkdirFail dest = false) (hw : ∀ p, oc.writeFail p = false)
    (hmk2 : oc2.mkdirFail dest2 = true) :
    (download_file oc mr item dest st).1 = Except.ok () ∧
    download_file oc2 mr item2 dest2 st2 = (Except.error Exc.localErr, st2, []) := by
  constructor
  · simp only [download_file, hmk, Bool.false_eq_true, if_false, hw]
    split
    · rfl
    · split
      · rfl
      · split
        · rfl
        · split <;> rfl
  · simp [download_file, hmk2]

/-- Witness for the amended C5: a clean transfer returns normally and an
mkdir-failing one raises. -/
theorem file_failure_isolation_amended_witness :
    (download_file cleanOracles 5 item1 "d" st0).1 = Except.ok () ∧
    download_file ocMk 5 item1 "d" st0 = (Except.error Exc.localErr, st0, []) :=
  file_failure_isolation_amended cleanOracles ocMk 5 item1 item1 "d" "d" st0 st0
    rfl (fun _ => rfl) rfl

/-- C7 (counterexample): for a 5-byte file delivered in chunks of 3 and 2
bytes, the progress bar (total 5) is advanced by 3 and then by 5 — the
cumulative `status.resumable_progress`, not the chunk's byte length — so the
counter reaches 8, exceeding `totalBytes`. -/
theorem progress_overshoots_cx :
    updatesOf (download_files oc7 "root" "Root" forest7 "d" true st0).2.2 =
      [3, 5] ∧
    pbarTotalsOf (download_files oc7 "root" "Root" forest7 "d" true st0).2.2 =
      [5] ∧
    updatesOf (download_files oc7 "root" "Root" forest7 "d" true st0).2.2 ≠
      [3, 2] ∧
    (updatesOf (download_files oc7 "root" "Root" forest7 "d" true st0).2.2).sum >
      5 := by
  refine ⟨rfl, rfl, by decide, by decide⟩

theorem runChunks_mkPlan (ds : List Content) :
    ds ≠ [] → ∀ fh prog, runChunks (mkPlan ds) fh prog =
      WhileRes.completed [] (fh ++ catAll ds) (prog + (ds.map List.length).sum)
        ((cumSumsFrom prog (ds.map List.length)).map Ev.update) := by
  induction ds with
  | nil => intro h; cases h rfl
  | cons d rest ih =>
    intro _ fh prog
    cases rest with
    | nil => simp [mkPlan, runChunks, catAll, cumSumsFrom]
    | cons d2 r2 =>
      have hne : d2 :: r2 ≠ [] := by simp
      simp [mkPlan, runChunks, ih hne, catAll, cumSumsFrom,
        List.append_assoc, Nat.add_assoc]

/-- C7 (amended): each recursive `download_files` call creates its own
progress bar, whose total is that folder's subtree byte total recomputed at
entry (the `newPbar` event after the folder's listing); and after each
successfully retrieved chunk the bar is advanced by the file's cumulative
downloaded byte count so far (the running partial sums of the chunk
lengths), not by the chunk's own length. -/
theorem progress_amended (ds : List Content) (m : Nat) (oc : Oracles)
    (fid fname destFolder : String) (children : Forest) (isRoot : Bool)
    (st : WState) (hds : ds ≠ []) (hm : 1 ≤ m)
    (hmk : oc.mkdirFail
      (if isRoot then destFolder else destFolder ++ "/" ++ fname) = false) :
    chunkRetryLoop (mkPlan ds) [] 0 0 m =
      LoopRes.fellThrough false (catAll ds)
        ((cumSums (ds.map List.length)).map Ev.update) ∧
    ∃ rest, (download_files oc fid fname children destFolder isRoot st).2.2 =
      Ev.mkdirEv (if isRoot then destFolder else destFolder ++ "/" ++ fname) ::
      Ev.listed fid
        (if oc.listFail st.nList then [] else listItems st.removed children) ::
      ((gts oc fid children (bumpList st)).2.2 ++
        Ev.newPbar (gts oc fid children (bumpList st)).1 :: rest) := by
  constructor
  · obtain ⟨m2, rfl⟩ := Nat.exists_eq_add_of_le hm
    rw [Nat.add_comm]
    simp [chunkRetryLoop, runChunks_mkPlan ds hds [] 0, cumSums]
  · rcases hf : oc.listFail st.nList with _ | _ <;>
      simp only [download_files, hmk, Bool.false_eq_true, if_false, hf,
        withTrace, if_true]
    · exact ⟨(andThen (filesPass oc (bumpList st).removed children
          (if isRoot then destFolder else destFolder ++ "/" ++ fname)
          (gts oc fid children (bumpList st)).2.1)
          fun s3 => andThen (walkKids oc (bumpList st).removed children
            (if isRoot then destFolder else destFolder ++ "/" ++ fname) s3)
            fun s4 => reap oc 5 fid children s4).2.2, by simp⟩
    · exact ⟨(reap oc 5 fid children (gts oc fid children (bumpList st)).2.1).2.2,
        by simp⟩

/-- Witness for the amended C7 on the two-chunk run. -/
theorem progress_amended_witness :
    chunkRetryLoop (mkPlan [[1, 2, 3], [4, 5]]) [] 0 0 5 =
      LoopRes.fellThrough false (catAll [[1, 2, 3], [4, 5]])
        ((cumSums ([[1, 2, 3], [4, 5]].map List.length)).map Ev.update) ∧
    ∃ rest, (download_files oc7 "root" "Root" forest7 "d" true st0).2.2 =
      Ev.mkdirEv (if true then "d" else "d" ++ "/" ++ "Root") ::
      Ev.listed "root"
        (if oc7.listFail st0.nList then [] else listItems st0.removed forest7) ::
      ((gts oc7 "root" forest7 (bumpList st0)).2.2 ++
        Ev.newPbar (gts oc7 "root" forest7 (bumpList st0)).1 :: rest) :=
  progress_amended [[1, 2, 3], [4, 5]] 5 oc7 "root" "Root" "d" forest7 true st0
    (by decide) (by decide) rfl

/-- C3 (counterexample): a transient 429 on the first listing call makes
`list_sources` return `[]` after exactly one invocation with no backoff
sleep — the listing is not retried; likewise the single file-delete call of
`download_file` is issued exactly once, with no retry after its transient
failure (the trace ends at the one failed call, with no sleep after it). -/
theorem listing_not_retried_cx :
    listSourcesPages [Except.error 429] = ([], 1, []) ∧
    isTransient 429 = true ∧
    (download_file ocD 5 item1 "d" st0).2.2 =
      [Ev.mkdirEv "d", Ev.update 1, Ev.wrote "d/A.bin" [7],
        Ev.fileDelCall "f1" false] :=
  ⟨rfl, rfl, rfl⟩

theorem chunkRetryLoop_all_fail (s : Nat) (hs : isTransient s = true) :
    ∀ fuel i fh prog,
      chunkRetryLoop (List.replicate fuel (FetchEvent.fail s)) fh prog i fuel =
        LoopRes.fellThrough true fh
          ((List.range fuel).map (fun k => Ev.sleep (2 ^ (i + k)))) := by
  intro fuel
  induction fuel with
  | zero => intro i fh prog; rfl
  | succ n ih =>
    intro i fh prog
    simp only [List.replicate_succ, chunkRetryLoop, runChunks, hs, if_true,
      ih (i + 1)]
    rw [List.range_succ_eq_map]
    simp only [List.map_cons, List.map_map, Nat.add_zero, List.nil_append]
    refine congrArg _ (congrArg _ ?_)
    apply List.map_congr_left
    intro a _
    simp only [Function.comp_apply]
    congr 2
    omega

theorem delLoop_all_transient (oc : Oracles) (fid : String) (s : Nat)
    (hs : isTransient s = true) (h : ∀ i, oc.folderDelRes fid i = some s) :
    ∀ fuel i st, delLoop oc fid i fuel st =
      (Except.ok (), st, fdelAttempts fid i fuel) := by
  intro fuel
  induction fuel with
  | zero => intro i st; rfl
  | succ n ih =>
    intro i st
    simp [delLoop, h i, hs, ih (i + 1), fdelAttempts]

/-- C3 (amended): only the per-chunk content reads and the folder deletions
are wrapped in the bounded exponential-backoff retry (each retried up to
`maxAttempts` times with sleeps `2^0, 2^1, ...`); the child listing and the
per-file remote deletion are each issued exactly once — a transient failure
makes the listing return the empty sequence and makes the file deletion a
logged no-op, with no retry and no backoff in either case. -/
theorem retry_coverage_amended (s1 s2 s3 m : Nat) (oc : Oracles)
    (fid : String) (st : WState)
    (h1 : isTransient s1 = true)
    (h2 : ∀ i, oc.folderDelRes fid i = some s2) (hs2 : isTransient s2 = true) :
    chunkRetryLoop (List.replicate m (FetchEvent.fail s1)) [] 0 0 m =
      LoopRes.fellThrough true []
        ((List.range m).map (fun k => Ev.sleep (2 ^ k))) ∧
    delLoop oc fid 0 m st = (Except.ok (), st, fdelAttempts fid 0 m) ∧
    listSourcesPages [Except.error s3] = ([], 1, []) ∧
    (download_file ocD 5 item1 "d" st0).2.2 =
      [Ev.mkdirEv "d", Ev.update 1, Ev.wrote "d/A.bin" [7],
        Ev.fileDelCall "f1" false] := by
  refine ⟨?_, ?_, rfl, rfl⟩
  · have h := chunkRetryLoop_all_fail s1 h1 m 0 [] 0
    simpa using h
  · exact delLoop_all_transient oc fid s2 hs2 h2 m 0 st

/-- Witness for the amended C3 at `m = 3` and transient status 429. -/
theorem retry_coverage_amended_witness :
    chunkRetryLoop (List.replicate 3 (FetchEvent.fail 429)) [] 0 0 3 =
      LoopRes.fellThrough true []
        ((List.range 3).map (fun k => Ev.sleep (2 ^ k))) ∧
    delLoop ocFD "g" 0 3 st0 = (Except.ok (), st0, fdelAttempts "g" 0 3) ∧
    listSourcesPages [Except.error 500] = ([], 1, []) ∧
    (download_file ocD 5 item1 "d" st0).2.2 =
      [Ev.mkdirEv "d", Ev.update 1, Ev.wrote "d/A.bin" [7],
        Ev.fileDelCall "f1" false] :=
  retry_coverage_amended 429 429 500 3 ocFD "g" st0 rfl (fun _ => rfl) rfl

theorem scanOk_cons (s : Option String) (e : Ev) (tr : List Ev) :
    scanOk s (e :: tr) = (evOk s e && scanOk (armStep s e) tr) := rfl

theorem scanOk_append (a : List Ev) :
    ∀ (b : List Ev) (s : Option String),
      scanOk s (a ++ b) = (scanOk s a && scanOk (a.foldl armStep s) b) := by
  induction a with
  | nil => intro b s; simp [scanOk]
  | cons e r ih =>
    intro b s
    simp [scanOk_cons, ih, Bool.and_assoc, List.foldl_cons]

theorem scanOk_of_noFdel (tr : List Ev) :
    hasFdel tr = false → ∀ s, scanOk s tr = true := by
  induction tr with
  | nil => intro _ s; rfl
  | cons e r ih =>
    intro h s
    cases e <;>
      first
        | (simp only [hasFdel] at h
           simp [scanOk_cons, evOk, ih h])
        | simp [hasFdel] at h

theorem scanOk_append_all (a b : List Ev) (s : Option String)
    (ha : scanOk s a = true) (hb : ∀ s2, scanOk s2 b = true) :
    scanOk s (a ++ b) = true := by
  rw [scanOk_append]
  simp [ha, hb]

theorem hasFdel_append (a b : List Ev) :
    hasFdel (a ++ b) = (hasFdel a || hasFdel b) := by
  induction a with
  | nil => simp [hasFdel]
  | cons e r ih => cases e <;> simp [hasFdel, ih]

theorem hasFdel_andThen (r : Except Exc Unit × WState × List Ev)
    (k : WState → Except Exc Unit × WState × List Ev)
    (h1 : hasFdel r.2.2 = false) (h2 : ∀ st, hasFdel (k st).2.2 = false) :
    hasFdel (andThen r k).2.2 = false := by
  rcases r with ⟨e | u, st, tr⟩
  · simpa [andThen] using h1
  · simp only [andThen, hasFdel_append]
    rw [Bool.or_eq_false_iff]
    exact ⟨by simpa using h1, h2 st⟩

theorem scanOk_andThen (r : Except Exc Unit × WState × List Ev)
    (k : WState → Except Exc Unit × WState × List Ev) (s : Option String)
    (h1 : scanOk s r.2.2 = true) (h2 : ∀ st s2, scanOk s2 (k st).2.2 = true) :
    scanOk s (andThen r k).2.2 = true := by
  rcases r with ⟨e | u, st, tr⟩
  · simpa [andThen] using h1
  · simp only [andThen]
    exact scanOk_append_all _ _ _ (by simpa using h1) (fun s2 => h2 st s2)

theorem scanOk_withTrace_all (tr : List Ev)
    (r : Except Exc Unit × WState × List Ev) (s : Option String)
    (h1 : hasFdel tr = false) (h2 : ∀ s2, scanOk s2 r.2.2 = true) :
    scanOk s (withTrace tr r).2.2 = true := by
  simp only [withTrace]
  exact scanOk_append_all _ _ _ (scanOk_of_noFdel tr h1 s) h2

theorem hasFdel_runChunks (plan : List FetchEvent) :
    ∀ fh prog, hasFdel (whileTr (runChunks plan fh prog)) = false := by
  induction plan with
  | nil => intro fh prog; rfl
  | cons e rest ih =>
    intro fh prog
    rcases e with ⟨d, last⟩ | s
    · rcases last with _ | _
      · simp only [runChunks]
        rcases hw : runChunks rest (fh ++ d) (prog + d.length) with
          ⟨r, f, p, tr⟩ | ⟨s2, r, f, p, tr⟩ <;>
          · have := ih (fh ++ d) (prog + d.length)
            rw [hw] at this
            simpa [whileTr, hasFdel] using this
      · simp [runChunks, whileTr, hasFdel]
    · simp [runChunks, whileTr, hasFdel]

theorem hasFdel_loopTr (fuel : Nat) :
    ∀ plan fh prog i, hasFdel (loopTr (chunkRetryLoop plan fh prog i fuel)) = false := by
  induction fuel with
  | zero => intro plan fh prog i; rfl
  | succ n ih =>
    intro plan fh prog i
    simp only [chunkRetryLoop]
    rcases hw : runChunks plan fh prog with ⟨r, f, p, tr⟩ | ⟨s, r, f, p, tr⟩
    · have := hasFdel_runChunks plan fh prog
      rw [hw] at this
      simpa [loopTr, whileTr] using this
    · have htr : hasFdel tr = false := by
        have := hasFdel_runChunks plan fh prog
        rw [hw] at this
        simpa [whileTr] using this
      by_cases ht : isTransient s = true
      · simp only [ht, if_true]
        rcases hc : chunkRetryLoop r f p (i + 1) n with ⟨ex, f2, tr2⟩ | ⟨s2, f2, tr2⟩ <;>
          · have h2 := ih r f p (i + 1)
            rw [hc] at h2
            simp only [loopTr] at h2 ⊢
            simp [hasFdel_append, hasFdel, htr, h2]
      · simp only [Bool.not_eq_true] at ht
        simp [ht, loopTr, htr]

theorem hasFdel_download_file (oc : Oracles) (mr : Nat) (item : DriveItem)
    (dest : String) (st : WState) :
    hasFdel (download_file oc mr item dest st).2.2 = false := by
  have h := hasFdel_loopTr mr (oc.plans item.id) [] 0 0
  rcases hc : chunkRetryLoop (oc.plans item.id) [] 0 0 mr with
      ⟨ex, fh, tr⟩ | ⟨s, fh, tr⟩ <;>
    rw [hc] at h <;> simp only [loopTr] at h <;>
    rcases hd : oc.fileDelRes item.id with _ | v <;>
    simp only [download_file, hc, hd] <;>
    split_ifs <;>
    simp [hasFdel, hasFdel_append, h]

theorem hasFdel_gtsKids (f : Forest) :
    ∀ (oc : Oracles) (rem : List String) (st : WState),
      hasFdel (gtsKids oc rem f st).2.2 = false := by
  induction f with
  | empty => intro oc rem st; rfl
  | fileCons it rest ih =>
    intro oc rem st
    by_cases hc : it.id ∈ rem
    · simp [gtsKids, hc, ih]
    · by_cases hm : it.mimeType = folderMime
      · simp [gtsKids, hc, hm, hasFdel, ih oc rem (bumpList st)]
      · simp [gtsKids, hc, hm, ih]
  | folderCons fid fn kids rest ihk ihr =>
    intro oc rem st
    by_cases hc : fid ∈ rem
    · simp [gtsKids, hc, ihr]
    · rcases hf : oc.listFail st.nList with _ | _ <;>
        simp [gtsKids, hc, hf, hasFdel, hasFdel_append, ihk, ihr]

theorem hasFdel_gts (oc : Oracles) (fid : String) (children : Forest)
    (st : WState) : hasFdel (gts oc fid children st).2.2 = false := by
  rcases hf : oc.listFail st.nList with _ | _ <;>
    simp [gts, hf, hasFdel, hasFdel_gtsKids]

theorem hasFdel_filesPass (f : Forest) :
    ∀ (oc : Oracles) (rem : List String) (dest : String) (st : WState),
      hasFdel (filesPass oc rem f dest st).2.2 = false := by
  induction f with
  | empty => intro oc rem dest st; rfl
  | fileCons it rest ih =>
    intro oc rem dest st
    by_cases hc : it.id ∈ rem
    · simp [filesPass, hc, ih]
    · by_cases hm : it.mimeType = folderMime
      · simp [filesPass, hc, hm, ih]
      · simp only [filesPass]
        rw [if_neg (by simpa using hc), if_neg (by simpa using hm)]
        exact hasFdel_andThen _ _ (hasFdel_download_file oc 5 it dest st)
          (fun st2 => ih oc rem dest st2)
  | folderCons fid fn kids rest ihk ihr =>
    intro oc rem dest st
    simp [filesPass, ihr]

theorem scanOk_delLoop (oc : Oracles) (fid : String) :
    ∀ fuel i st, scanOk (some fid) (delLoop oc fid i fuel st).2.2 = true := by
  intro fuel
  induction fuel with
  | zero => intro i st; rfl
  | succ n ih =>
    intro i st
    rcases hd : oc.folderDelRes fid i with _ | s
    · simp [delLoop, hd, scanOk_cons, scanOk, evOk, armStep]
    · by_cases ht : isTransient s = true
      · simp [delLoop, hd, ht, scanOk_cons, scanOk, evOk, armStep, ih (i + 1)]
      · simp only [Bool.not_eq_true] at ht
        simp [delLoop, hd, ht, scanOk_cons, scanOk, evOk, armStep]

theorem scanOk_reapKids (oc : Oracles) (f : Forest) :
    ∀ (rem : List String) (st : WState) (s : Option String),
      scanOk s (reapKids oc rem f st).2.2 = true := by
  induction f with
  | empty => intro rem st s; rfl
  | fileCons it rest ih =>
    intro rem st s
    by_cases hcb : rem.contains it.id = true
    · have hp : it.id ∈ rem := by simpa using hcb
      simp [reapKids, hp, ih]
    · by_cases hmb : (it.mimeType == folderMime) = true
      · simp only [reapKids, if_neg hcb, if_pos hmb]
        apply scanOk_andThen
        · rw [scanOk_cons]
          simp only [evOk, armStep, List.isEmpty_nil, if_true, Bool.true_and]
          exact scanOk_delLoop oc it.id 5 0 (bumpList st)
        · intro st2 s2
          exact ih rem st2 s2
      · simp [reapKids, hcb, hmb, ih]
  | folderCons fid fn kids rest ihk ihr =>
    intro rem st s
    by_cases hcb : rem.contains fid = true
    · have hp : fid ∈ rem := by simpa using hcb
      simp [reapKids, hp, ihr]
    · simp only [reapKids, if_neg hcb]
      rcases hf : oc.listFail st.nList with _ | _
      · by_cases he : (listItems st.removed kids).isEmpty = true
        · simp only [hf, Bool.false_eq_true, if_false, he, if_true]
          apply scanOk_andThen
          · rw [scanOk_cons]
            simp only [evOk, armStep, he, if_true, Bool.true_and]
            exact scanOk_delLoop oc fid 5 0 (bumpList st)
          · intro st2 s2
            exact ihr rem st2 s2
        · simp only [hf, Bool.false_eq_true, if_false, if_neg he]
          apply scanOk_andThen
          · rw [scanOk_cons]
            simp only [evOk, armStep, Bool.true_and]
            rw [if_neg he]
            exact ihk (bumpList st).removed (bumpList st) none
          · intro st2 s2
            exact ihr rem st2 s2
      · simp only [hf, if_true, List.isEmpty_nil]
        apply scanOk_andThen
        · rw [scanOk_cons]
          simp only [evOk, armStep, List.isEmpty_nil, if_true, Bool.true_and]
          exact scanOk_delLoop oc fid 5 0 (bumpList st)
        · intro st2 s2
          exact ihr rem st2 s2

theorem scanOk_reap (oc : Oracles) (mr : Nat) (fid : String)
    (children : Forest) (st : WState) :
    ∀ s, scanOk s (reap oc mr fid children st).2.2 = true := by
  intro s
  rcases hf : oc.listFail st.nList with _ | _
  · by_cases he : (listItems st.removed children).isEmpty = true
    · simp only [reap, hf, Bool.false_eq_true, if_false, he, if_true]
      rw [scanOk_cons]
      simp only [evOk, armStep, he, if_true, Bool.true_and]
      exact scanOk_delLoop oc fid mr 0 (bumpList st)
    · simp only [reap, hf, Bool.false_eq_true, if_false, if_neg he]
      rw [scanOk_cons]
      simp only [evOk, armStep, Bool.true_and]
      rw [if_neg he]
      exact scanOk_reapKids oc children (bumpList st).removed (bumpList st) none
  · simp only [reap, hf, if_true, List.isEmpty_nil]
    rw [scanOk_cons]
    simp only [evOk, armStep, List.isEmpty_nil, if_true, Bool.true_and]
    exact scanOk_delLoop oc fid mr 0 (bumpList st)

theorem scanOk_walkKids (oc : Oracles) (f : Forest) :
    ∀ (rem : List String) (dest : String) (st : WState) (s : Option String),
      scanOk s (walkKids oc rem f dest st).2.2 = true := by
  induction f with
  | empty => intro rem dest st s; rfl
  | fileCons it rest ih =>
    intro rem dest st s
    by_cases hcb : rem.contains it.id = true
    · have hp : it.id ∈ rem := by simpa using hcb
      simp [walkKids, hp, ih]
    · by_cases hmb : (it.mimeType == folderMime) = true
      · simp only [walkKids, if_neg hcb, if_pos hmb]
        apply scanOk_andThen
        · by_cases hk : oc.mkdirFail (dest ++ "/" ++ it.name) = true
          · simp only [if_pos hk]; rfl
          · simp only [if_neg hk]
            apply scanOk_withTrace_all
            · simp [hasFdel, hasFdel_append, hasFdel_gts, hasFdel_gtsKids]
              try split_ifs <;> simp [hasFdel, hasFdel_gtsKids]
            · intro s2
              exact scanOk_reap oc 5 it.id Forest.empty _ s2
        · intro st2 s2
          exact ih rem dest st2 s2
      · simp [walkKids, hcb, hmb, ih]
  | folderCons fid fn kids rest ihk ihr =>
    intro rem dest st s
    by_cases hcb : rem.contains fid = true
    · have hp : fid ∈ rem := by simpa using hcb
      simp [walkKids, hp, ihr]
    · simp only [walkKids, if_neg hcb]
      apply scanOk_andThen
      · by_cases hk : oc.mkdirFail (dest ++ "/" ++ fn) = true
        · simp only [if_pos hk]; rfl
        · simp only [if_neg hk]
          rcases hf : oc.listFail st.nList with _ | _
          · simp only [hf, Bool.false_eq_true, if_false]
            apply scanOk_withTrace_all
            · simp [hasFdel, hasFdel_append, hasFdel_gts, hasFdel_gtsKids]
              try split_ifs <;> simp [hasFdel, hasFdel_gtsKids]
            · intro s2
              apply scanOk_andThen
              · exact scanOk_of_noFdel _ (hasFdel_filesPass kids oc _ _ _) s2
              · intro st3 s3
                apply scanOk_andThen
                · exact ihk _ _ _ s3
                · intro st4 s4
                  exact scanOk_reap oc 5 fid kids st4 s4
          · simp only [hf, if_true]
            apply scanOk_withTrace_all
            · simp [hasFdel, hasFdel_append, hasFdel_gts, hasFdel_gtsKids]
              try split_ifs <;> simp [hasFdel, hasFdel_gtsKids]
            · intro s2
              exact scanOk_reap oc 5 fid kids _ s2
      · intro st2 s2
        exact ihr rem dest st2 s2

/-- C2: in every run of the job, a remote folder deletion is attempted only
when a listing of that same folder, performed immediately before the
attempt, returned zero children: the trace scanner requires every
folder-delete call to be preceded by an empty listing of that folder with
only backoff sleeps and earlier delete attempts for the same folder in
between, and it accepts every `download_files` trace. -/
theorem folder_delete_needs_empty_listing (oc : Oracles) (fid fname : String)
    (children : Forest) (destFolder : String) (isRoot : Bool) (st : WState) :
    scanOk none
      (download_files oc fid fname children destFolder isRoot st).2.2 = true := by
  by_cases hk : oc.mkdirFail
      (if isRoot then destFolder else destFolder ++ "/" ++ fname) = true
  · simp [download_files, hk, scanOk]
  · simp only [download_files, if_neg hk]
    rcases hf : oc.listFail st.nList with _ | _
    · simp only [hf, Bool.false_eq_true, if_false]
      apply scanOk_withTrace_all
      · simp [hasFdel, hasFdel_append, hasFdel_gts, hasFdel_gtsKids]
        try split_ifs <;> simp [hasFdel, hasFdel_gtsKids]
      · intro s2
        apply scanOk_andThen
        · exact scanOk_of_noFdel _ (hasFdel_filesPass children oc _ _ _) s2
        · intro st3 s3
          apply scanOk_andThen
          · exact scanOk_walkKids oc children _ _ _ s3
          · intro st4 s4
            exact scanOk_reap oc 5 fid children st4 s4
    · simp only [hf, if_true]
      apply scanOk_withTrace_all
      · simp [hasFdel, hasFdel_append, hasFdel_gts, hasFdel_gtsKids]
        try split_ifs <;> simp [hasFdel, hasFdel_gtsKids]
      · intro s2
        exact scanOk_reap oc 5 fid children _ s2
